import Mathlib

/-!
Verification of the intent-pipeline core of the blndgs stackup-bundler fork.

The development shallowly embeds the Go sources:
  pkg/userop/intent.go            (HasIntent, IsUnsolvedIntent, IsIntentExecutable)
  pkg/client/client.go            (the generic keyed Queue)
  pkg/client/solveintents.go      (tick-path intent pipeline)
  pkg/modules/solution/solveintents.go  (batch-time SolveIntents handler)
  modules/checks ValidateVerificationGas and modules/relay SendUserOperation

Machine integers: the Go code stores gas and fee values in big.Int, which is
unbounded, so they are embedded as Int.  Byte slices that hold text (calldata,
signatures) are embedded as String.  Go maps are embedded as association
lists; the embedding is faithful pointwise (lookup, insert, per-entry update,
delete), which is all the source relies on since Go map iteration order is
unspecified.
-/

/-! ## JSON syntax

pkg/userop/intent.go decides intent-ness by calling json.Unmarshal into a
json.RawMessage, which succeeds exactly when the calldata is one
syntactically well-formed JSON value surrounded by optional whitespace.
The grammar below is RFC 8259 JSON as Go's encoding/json checks it.  Escape
sequences inside strings are validated but kept as their source characters:
no claim depends on the decoded content of an escape. -/

inductive Json where
  | jnull : Json
  | jbool : Bool → Json
  | jnum : String → Json
  | jstr : String → Json
  | jarr : List Json → Json
  | jobj : List (String × Json) → Json

def jsonWs (c : Char) : Bool :=
  c = ' ' || c = '\t' || c = '\n' || c = '\r'

def skipWs : List Char → List Char
  | [] => []
  | c :: cs => if jsonWs c then skipWs cs else c :: cs

def isHexDigitChar (c : Char) : Bool :=
  c.isDigit || ('a' ≤ c && c ≤ 'f') || ('A' ≤ c && c ≤ 'F')

def parseStringBody : List Char → Option (List Char × List Char)
  | [] => none
  | c :: cs =>
    if c = '"' then some ([], cs)
    else if c = '\\' then
      match cs with
      | [] => none
      | e :: cs2 =>
        if e = 'u' then
          match cs2 with
          | h1 :: h2 :: h3 :: h4 :: cs3 =>
            if isHexDigitChar h1 && isHexDigitChar h2 && isHexDigitChar h3 && isHexDigitChar h4 then
              match parseStringBody cs3 with
              | some (s, r) => some (h1 :: h2 :: h3 :: h4 :: s, r)
              | none => none
            else none
          | _ => none
        else if e = '"' || e = '\\' || e = '/' || e = 'b' || e = 'f' ||
                e = 'n' || e = 'r' || e = 't' then
          match parseStringBody cs2 with
          | some (s, r) => some (e :: s, r)
          | none => none
        else none
    else if c.toNat < 32 then none
    else
      match parseStringBody cs with
      | some (s, r) => some (c :: s, r)
      | none => none

def takeDigits : List Char → List Char × List Char
  | [] => ([], [])
  | c :: cs =>
    if c.isDigit then
      let (d, r) := takeDigits cs
      (c :: d, r)
    else ([], c :: cs)

def parseIntPart : List Char → Option (List Char × List Char)
  | [] => none
  | c :: cs =>
    if c = '0' then some ([c], cs)
    else if c.isDigit then
      let (d, r) := takeDigits cs
      some (c :: d, r)
    else none

def parseFracPart : List Char → Option (List Char × List Char)
  | '.' :: cs =>
    match takeDigits cs with
    | ([], _) => none
    | (d, r) => some ('.' :: d, r)
  | cs => some ([], cs)

def parseExpPart : List Char → Option (List Char × List Char)
  | [] => some ([], [])
  | c :: cs =>
    if c = 'e' || c = 'E' then
      let (sgn, cs2) :=
        match cs with
        | s :: rest => if s = '+' || s = '-' then ([s], rest) else (([] : List Char), cs)
        | [] => ([], [])
      match takeDigits cs2 with
      | ([], _) => none
      | (d, r) => some (c :: (sgn ++ d), r)
    else some ([], c :: cs)

def parseNumber (cs : List Char) : Option (List Char × List Char) :=
  let (neg, cs1) :=
    match cs with
    | '-' :: t => (['-'], t)
    | _ => (([] : List Char), cs)
  match parseIntPart cs1 with
  | none => none
  | some (ip, r1) =>
    match parseFracPart r1 with
    | none => none
    | some (fp, r2) =>
      match parseExpPart r2 with
      | none => none
      | some (ep, r3) => some (neg ++ ip ++ fp ++ ep, r3)

mutual

def parseValue : Nat → List Char → Option (Json × List Char)
  | 0, _ => none
  | Nat.succ fuel, cs =>
    match skipWs cs with
    | [] => none
    | c :: cs1 =>
      if c = 'n' then
        match cs1 with
        | 'u' :: 'l' :: 'l' :: r => some (Json.jnull, r)
        | _ => none
      else if c = 't' then
        match cs1 with
        | 'r' :: 'u' :: 'e' :: r => some (Json.jbool true, r)
        | _ => none
      else if c = 'f' then
        match cs1 with
        | 'a' :: 'l' :: 's' :: 'e' :: r => some (Json.jbool false, r)
        | _ => none
      else if c = '"' then
        match parseStringBody cs1 with
        | some (s, r) => some (Json.jstr (String.mk s), r)
        | none => none
      else if c = '[' then parseArrayRest fuel (skipWs cs1)
      else if c = '\x7b' then parseObjectRest fuel (skipWs cs1)
      else
        match parseNumber (c :: cs1) with
        | some (lex, r) => some (Json.jnum (String.mk lex), r)
        | none => none

def parseArrayRest : Nat → List Char → Option (Json × List Char)
  | 0, _ => none
  | Nat.succ fuel, cs =>
    match cs with
    | ']' :: r => some (Json.jarr [], r)
    | _ =>
      match parseValue fuel cs with
      | some (v, r1) => parseArrayMore fuel [v] r1
      | none => none

def parseArrayMore : Nat → List Json → List Char → Option (Json × List Char)
  | 0, _, _ => none
  | Nat.succ fuel, acc, cs =>
    match skipWs cs with
    | ']' :: r => some (Json.jarr acc.reverse, r)
    | ',' :: r =>
      match parseValue fuel r with
      | some (v, r1) => parseArrayMore fuel (v :: acc) r1
      | none => none
    | _ => none

def parseMember : Nat → List Char → Option ((String × Json) × List Char)
  | 0, _ => none
  | Nat.succ fuel, cs =>
    match skipWs cs with
    | '"' :: cs1 =>
      match parseStringBody cs1 with
      | some (k, r1) =>
        match skipWs r1 with
        | ':' :: r2 =>
          match parseValue fuel r2 with
          | some (v, r3) => some ((String.mk k, v), r3)
          | none => none
        | _ => none
      | none => none
    | _ => none

def parseObjectRest : Nat → List Char → Option (Json × List Char)
  | 0, _ => none
  | Nat.succ fuel, cs =>
    match cs with
    | '\x7d' :: r => some (Json.jobj [], r)
    | _ =>
      match parseMember fuel cs with
      | some (m, r1) => parseObjectMore fuel [m] r1
      | none => none

def parseObjectMore : Nat → List (String × Json) → List Char → Option (Json × List Char)
  | 0, _, _ => none
  | Nat.succ fuel, acc, cs =>
    match skipWs cs with
    | '\x7d' :: r => some (Json.jobj acc.reverse, r)
    | ',' :: r =>
      match parseMember fuel r with
      | some (m, r1) => parseObjectMore fuel (m :: acc) r1
      | none => none
    | _ => none

end

/-- One whole JSON value with optional surrounding whitespace, as
json.Unmarshal validates its input.  The fuel s.length + 1 is enough
because every recursive descent step consumes at least one character. -/
def parseJson (s : String) : Option Json :=
  match parseValue (s.length + 1) s.data with
  | some (v, rest) => if skipWs rest = [] then some v else none
  | none => none

/-- True exactly when the value is a JSON object: the predicate the spec uses
for intent-ness ("calldata parses as a well-formed intent JSON object"). -/
def jsonIsObj : Json → Bool
  | Json.jobj _ => true
  | _ => false

/-! ## The operation model

pkg/userop.UserOperation (structurally congruent to the external
model.UserOperation, as the source asserts with
var _ = model.UserOperation(userop.UserOperation{})).

Two attributes stand in for externally computed values:
  opHash models GetUserOpHash(entryPoint, chainID).String(), the stable
    32-byte operation digest of the external library, cached as an attribute
    (the spec: the hash is computed once at admission and is the stable
    identifier, unchanged by applying a solution);
  hasEVM models model.UserOperation.HasEVMInstructions() of the external
    library (spec section 3: an additional EVM-instructions region is present
    in the signature tail). -/

structure UserOperation where
  sender : String := ""
  nonce : Int := 0
  initCode : String := ""
  callData : String := ""
  callGasLimit : Int := 0
  verificationGasLimit : Int := 0
  preVerificationGas : Int := 0
  maxFeePerGas : Int := 0
  maxPriorityFeePerGas : Int := 0
  paymasterAndData : String := ""
  signature : String := ""
  opHash : String := ""
  hasEVM : Bool := false
  deriving DecidableEq

/-- pkg/userop/intent.go HasIntent: json.Unmarshal of the calldata into a
json.RawMessage returns nil exactly when the calldata is one syntactically
valid JSON value. -/
def UserOperation.hasIntent (op : UserOperation) : Bool :=
  (parseJson op.callData).isSome

/-- pkg/userop/intent.go IsUnsolvedIntent: HasIntent and not HasEVMInstructions. -/
def UserOperation.isUnsolvedIntent (op : UserOperation) : Bool :=
  op.hasIntent && !op.hasEVM

/-- The predicate the relay module calls IsSolvedIntent (pkg/userop defines
the same test under the name IsIntentExecutable): HasIntent and
HasEVMInstructions. -/
def UserOperation.isSolvedIntent (op : UserOperation) : Bool :=
  op.hasIntent && op.hasEVM

/-- The spec's own wording of HasIntent ("Returns true iff calldata is a
syntactically valid JSON object"), kept separate from the source's
UserOperation.hasIntent so the two can be compared. -/
def hasIntentSpecObj (callData : String) : Bool :=
  match parseJson callData with
  | some j => jsonIsObj j
  | none => false

/-! ## Intent records and their JSON decoding -/

/-- model.ProcessingStatus of the external library: Received, SentToSolver,
Solved, Unsolved, Expired, Invalid, plus a catch-all for any other wire
value (the handlers treat such a value as a protocol error). -/
inductive IntentStatus where
  | received
  | sentToSolver
  | solved
  | unsolved
  | expired
  | invalid
  | unknown : String → IntentStatus
  deriving DecidableEq

/-- model.Intent of the external library, with the essential attributes the
spec lists (section 3) and the sources read: sender, kind, hash (bound to the
parent operation hash), calldata carried back by the Solver, createdAt,
expirationAt, processing status.  The Go zero value has empty strings,
zero times and status Received. -/
structure Intent where
  sender : String := ""
  kind : String := ""
  hash : String := ""
  callData : String := ""
  createdAt : Int := 0
  expirationAt : Int := 0
  status : IntentStatus := IntentStatus.received
  deriving DecidableEq

/-- Digits folded into a Nat; none when a non-digit appears.  Used to decode
a JSON number lexeme into an integer field the way encoding/json does: a
fraction or exponent makes the decode into an integer field fail. -/
def digitsToNatAux : Nat → List Char → Option Nat
  | acc, [] => some acc
  | acc, c :: cs =>
    if c.isDigit then digitsToNatAux (acc * 10 + (c.toNat - 48)) cs
    else none

def jsonNumToInt (lex : String) : Option Int :=
  match lex.data with
  | [] => none
  | '-' :: ds =>
    if ds = [] then none
    else
      match digitsToNatAux 0 ds with
      | some n => some (-(n : Int))
      | none => none
  | ds =>
    match digitsToNatAux 0 ds with
    | some n => some ((n : Int))
    | none => none

/-- One decoded object member applied to an Intent under construction,
with encoding/json semantics: a known field must carry a value of the right
JSON kind (string fields a string, integer fields an integral number) or the
whole decode fails; unknown members are ignored. -/
def intentSetField (it : Intent) : String × Json → Option Intent
  | (k, v) =>
    if k = "sender" then
      match v with
      | Json.jstr s => some { it with sender := s }
      | _ => none
    else if k = "kind" then
      match v with
      | Json.jstr s => some { it with kind := s }
      | _ => none
    else if k = "hash" then
      match v with
      | Json.jstr s => some { it with hash := s }
      | _ => none
    else if k = "callData" then
      match v with
      | Json.jstr s => some { it with callData := s }
      | _ => none
    else if k = "createdAt" then
      match v with
      | Json.jnum lex =>
        match jsonNumToInt lex with
        | some n => some { it with createdAt := n }
        | none => none
      | _ => none
    else if k = "expirationAt" then
      match v with
      | Json.jnum lex =>
        match jsonNumToInt lex with
        | some n => some { it with expirationAt := n }
        | none => none
      | _ => none
    else some it

def intentFromFields : Intent → List (String × Json) → Option Intent
  | it, [] => some it
  | it, f :: fs =>
    match intentSetField it f with
    | some it2 => intentFromFields it2 fs
    | none => none

/-- json.Unmarshal of calldata into a model.Intent record: the input must be
one valid JSON value, and a struct target accepts only an object (decoded
member by member) or the literal null (which leaves the zero value).  Any
other JSON kind, or a field of the wrong type, is a decode error. -/
def unmarshalIntent (s : String) : Option Intent :=
  match parseJson s with
  | some Json.jnull => some {}
  | some (Json.jobj fields) => intentFromFields {} fields
  | _ => none

/-! ## Association-list embedding of Go maps -/

def alistLookup {A : Type} : List (String × A) → String → Option A
  | [], _ => none
  | p :: m, k => if p.1 = k then some p.2 else alistLookup m k

def alistInsert {A : Type} (m : List (String × A)) (k : String) (v : A) :
    List (String × A) :=
  (k, v) :: m.filter (fun p => p.1 ≠ k)

def alistErase {A : Type} (m : List (String × A)) (k : String) : List (String × A) :=
  m.filter (fun p => p.1 ≠ k)

/-! ## The keyed queue (pkg/client/client.go)

A Queue holds a slice of items and a map from string keys to positions.
The Go NewQueue capacity argument only sizes the backing array, so it has
no semantic content here; Reset keeps it as an (ignored) argument because
the Go method takes one.  Faithfully to the source, Reset replaces the item
slice and does NOT touch the keys map, and Dequeue drops the head item
without updating the keys map. -/

structure Queue (T : Type) where
  items : List T
  keys : List (String × Nat)
  deriving DecidableEq

def Queue.new (T : Type) : Queue T := { items := [], keys := [] }

def Queue.size {T : Type} (q : Queue T) : Nat := q.items.length

def Queue.toSlice {T : Type} (q : Queue T) : List T := q.items

def Queue.findIndexByKey {T : Type} (q : Queue T) (key : String) : Nat × Bool :=
  match alistLookup q.keys key with
  | some i => (i, true)
  | none => (0, false)

/-- updateKeysAfterEnqueue: every mapped position at or past the given index
moves up one. -/
def updateKeysAfterEnqueue (m : List (String × Nat)) (index : Nat) :
    List (String × Nat) :=
  m.map (fun p => if p.2 ≥ index then (p.1, p.2 + 1) else p)

def Queue.enqueueHead {T : Type} (q : Queue T) (key : String) (item : T) : Queue T :=
  { items := item :: q.items,
    keys := alistInsert (updateKeysAfterEnqueue q.keys 0) key 0 }

def Queue.enqueueTail {T : Type} (q : Queue T) (key : String) (item : T) : Queue T :=
  { items := q.items ++ [item],
    keys := alistInsert q.keys key q.items.length }

/-- EnqueueWithKey appends at the tail exactly as EnqueueTail does. -/
def Queue.enqueueWithKey {T : Type} (q : Queue T) (key : String) (item : T) : Queue T :=
  Queue.enqueueTail q key item

def Queue.reset {T : Type} (q : Queue T) (_capacity : Nat) : Queue T :=
  { items := [], keys := q.keys }

/-- Dequeue returns (zero value, false) on an empty queue and otherwise the
head with true; the keys map is not updated in either case, as in the source. -/
def Queue.dequeue {T : Type} [Inhabited T] (q : Queue T) : T × Bool × Queue T :=
  match q.items with
  | [] => (default, false, q)
  | x :: rest => (x, true, { q with items := rest })

/-- Peek: a Go int index, rejected with an error when outside the range
of the item slice. -/
def Queue.peek {T : Type} [Inhabited T] (q : Queue T) (index : Int) : Except String T :=
  if index < 0 || (q.items.length : Int) ≤ index then Except.error "index out of range"
  else Except.ok (q.items.getD index.toNat default)

/-- The per-entry keys update of Queue.Delete: entries mapped past the
deleted index move down one, the entry mapped at it is deleted, earlier
entries stay. -/
def shiftKeysAfterDelete (m : List (String × Nat)) (index : Nat) :
    List (String × Nat) :=
  m.filterMap (fun p =>
    if p.2 > index then some (p.1, p.2 - 1)
    else if p.2 = index then none
    else some p)

/-- Delete: on an out-of-range index the queue is returned unchanged with the
error the source produces; otherwise the item at the index is removed and the
keys map shifted. -/
def Queue.delete {T : Type} (q : Queue T) (index : Int) : Queue T × Option String :=
  if index < 0 || (q.items.length : Int) ≤ index then (q, some "index out of range")
  else
    ({ items := q.items.eraseIdx index.toNat,
       keys := shiftKeysAfterDelete q.keys index.toNat }, none)

/-! ## Index coherence of the keyed queue

The reference semantics keeps the queue as a plain list of (key, item)
pairs; the position of a key is its first occurrence.  A Queue is coherent
with such a reference sequence when its items are the reference items in
order, its keys map holds no key twice (a Go map cannot), and looking any
key up in the map gives exactly the position of that key in the reference
sequence. -/

def refFindIndex {T : Type} : List (String × T) → String → Option Nat
  | [], _ => none
  | p :: r, k =>
    if p.1 = k then some 0 else (refFindIndex r k).map (· + 1)

def alistNodupKeys {A : Type} (m : List (String × A)) : Prop :=
  (m.map Prod.fst).Nodup

def coherentWith {T : Type} (q : Queue T) (r : List (String × T)) : Prop :=
  q.items = r.map Prod.snd ∧
  alistNodupKeys q.keys ∧
  ∀ k, alistLookup q.keys k = refFindIndex r k

/-! ## Tick-path intent pipeline (pkg/client/solveintents.go)

EntryPointIntents holds the per-entry-point unsolved queue, the hash-indexed
buffer of originating operations, and the InvalidIntents counter.  The
scheduled sendToSolver closure snapshots the queue with ToSlice, resets the
queue, POSTs the snapshot to the Solver and reconciles the decoded reply.
The HTTP exchange (and the decode of the reply into the same slice of intent
pointers) happens outside this repository's pure state, so a dispatch is
parameterised by its outcome: transportError covers every early-return error
branch of the source (marshal failure, request-creation failure, send
failure, decode failure), and response carries the contents of the snapshot
slice after the reply has been decoded over it in place, which is the list
the source's reconciliation loop ranges over. -/

structure EntryPointIntents where
  unsolved : Queue Intent
  buffer : List (String × UserOperation)
  invalidIntents : Nat
  deriving DecidableEq

def EntryPointIntents.new : EntryPointIntents :=
  { unsolved := Queue.new Intent, buffer := [], invalidIntents := 0 }

inductive TickSolverOutcome where
  | transportError
  | response : List Intent → TickSolverOutcome
  deriving DecidableEq

/-- The reconciliation loop of the tick-path sendToSolver: expired intents
are dropped; Solved intents have their calldata written onto the buffered
operation, which is emitted on the solvedOps channel and removed from the
buffer; Unsolved intents are re-enqueued at the head; every other status is
dropped.  A Solved intent whose hash is missing from the buffer is skipped
here (the source would dereference a nil pointer on that branch; no claim
depends on it). -/
def processTickResponses (now : Int) :
    List Intent → EntryPointIntents → List UserOperation →
    EntryPointIntents × List UserOperation
  | [], ep, outs => (ep, outs)
  | intent :: rest, ep, outs =>
    if intent.expirationAt < now then processTickResponses now rest ep outs
    else
      match intent.status with
      | IntentStatus.solved =>
        match alistLookup ep.buffer intent.hash with
        | some op =>
          let solvedOp := { op with callData := intent.callData }
          processTickResponses now rest
            { ep with buffer := alistErase ep.buffer intent.hash }
            (outs ++ [solvedOp])
        | none => processTickResponses now rest ep outs
      | IntentStatus.unsolved =>
        processTickResponses now rest
          { ep with unsolved := Queue.enqueueHead ep.unsolved intent.hash intent }
          outs
      | _ => processTickResponses now rest ep outs

/-- One run of the scheduled sendToSolver closure.  The returned list is what
was sent over the solvedOps channel during the run. -/
def sendToSolverTick (ep : EntryPointIntents) (outcome : TickSolverOutcome)
    (now : Int) : EntryPointIntents × List UserOperation :=
  let intents := Queue.toSlice ep.unsolved
  if intents.length = 0 then (ep, [])
  else
    let ep1 := { ep with unsolved := Queue.reset ep.unsolved intents.length }
    match outcome with
    | TickSolverOutcome.transportError => (ep1, [])
    | TickSolverOutcome.response updated => processTickResponses now updated ep1 []

/-- The default TTL the source gives an intent without an expiration:
100 seconds. -/
def defaultIntentTTL : Int := 100

/-- identifyIntent of pkg/client/solveintents.go: a non-intent operation is
ignored; calldata that does not decode into an Intent increments
InvalidIntents and reports false; otherwise the operation is buffered under
its hash, the intent is stamped (hash, status Received, createdAt and
expirationAt defaults) and enqueued at the head of the unsolved queue. -/
def identifyIntent (ep : EntryPointIntents) (op : UserOperation) (now : Int) :
    EntryPointIntents × Bool :=
  if !op.hasIntent then (ep, false)
  else
    match unmarshalIntent op.callData with
    | none => ({ ep with invalidIntents := ep.invalidIntents + 1 }, false)
    | some parsed =>
      let ep1 := { ep with buffer := alistInsert ep.buffer op.opHash op }
      let it1 := { parsed with hash := op.opHash, status := IntentStatus.received }
      let it2 := if it1.createdAt = (0 : Int) then { it1 with createdAt := now } else it1
      let it3 :=
        if it2.expirationAt = (0 : Int) then
          { it2 with expirationAt := it2.createdAt + defaultIntentTTL }
        else it2
      ({ ep1 with unsolved := Queue.enqueueHead ep1.unsolved op.opHash it3 }, true)

/-- The client state the admission path touches: the (single entry point's)
pipeline shard, and the mempool as the ordered list of admitted operations. -/
structure ClientState where
  epIntents : EntryPointIntents
  mempool : List UserOperation
  deriving DecidableEq

/-- processIntent of pkg/client/solveintents.go: returns nothing.  It ignores
non-intent operations and calls identifyIntent, discarding identifyIntent's
boolean result, exactly as the source line i.identifyIntent(entrypointIntents,
userOp) does. -/
def processIntentStep (st : ClientState) (op : UserOperation) (now : Int) :
    ClientState :=
  if !op.hasIntent then st
  else { st with epIntents := (identifyIntent st.epIntents op now).1 }

/-- Modelled from the spec: the admission flow around processIntent is not
among the staged sources (the fork's client.SendUserOperation / addToMemPool
body is absent from src).  Spec section 4.4.1: the frontend admits the
operation to the mempool and notifies the pipeline.  The notification is the
staged processIntent, which returns nothing, so no failure inside it can
reach the mempool decision. -/
def admitUserOperation (st : ClientState) (op : UserOperation) (now : Int) :
    ClientState :=
  processIntentStep { st with mempool := st.mempool ++ [op] } op now

/-! ## Batch handler context (pkg/modules)

Modelled from the spec: the pkg/modules package is not among the staged
sources.  Spec sections 4.4.3 and 4.5: a batch handler works on the shared
batch context, and marking an operation removes it from the context batch
and records it for removal from the mempool.  MarkOpIndexForRemoval with an
index outside the batch leaves the context unchanged. -/

structure BatchHandlerCtx where
  batch : List UserOperation
  pendingRemoval : List UserOperation
  deriving DecidableEq

def BatchHandlerCtx.markOpIndexForRemoval (ctx : BatchHandlerCtx) (index : Nat) :
    BatchHandlerCtx :=
  match ctx.batch[index]? with
  | some op =>
    { batch := ctx.batch.eraseIdx index,
      pendingRemoval := ctx.pendingRemoval ++ [op] }
  | none => ctx

/-! ## Batch-time solution handler (pkg/modules/solution/solveintents.go) -/

/-- model.UserOperationExt: the per-operation envelope entry sent to and
returned by the Solver. -/
structure UserOperationExt where
  originalHashValue : String
  processingStatus : IntentStatus
  deriving DecidableEq

/-- bufferIntentOps: the intent operations of the batch are cloned into the
request body in batch order, each with an ext entry carrying its hash and
status Received, and the hash-to-batch-index map is built.  Operation hashes
are pairwise distinct within a batch (the mempool rejects duplicate hashes),
so the first-match lookup of the association list agrees with the Go map. -/
def bufferIntentOpsAux : List UserOperation → Nat →
    List UserOperation × List UserOperationExt × List (String × Nat)
  | [], _ => ([], [], [])
  | op :: rest, idx =>
    if op.hasIntent then
      (op :: (bufferIntentOpsAux rest (idx + 1)).1,
       { originalHashValue := op.opHash, processingStatus := IntentStatus.received } ::
         (bufferIntentOpsAux rest (idx + 1)).2.1,
       (op.opHash, idx) :: (bufferIntentOpsAux rest (idx + 1)).2.2)
    else bufferIntentOpsAux rest (idx + 1)

def bufferIntentOps (batch : List UserOperation) :
    List UserOperation × List UserOperationExt × List (String × Nat) :=
  bufferIntentOpsAux batch 0

/-- The outcome of the one-shot batch-time Solver exchange: transportError
covers the error returns of the nested sendToSolver (marshal, request
creation, send, decode), and response carries the request body's UserOps and
UserOpsExt slices as the caller sees them after the reply has been decoded
over them. -/
inductive BatchSolverOutcome where
  | transportError : String → BatchSolverOutcome
  | response : List UserOperation → List UserOperationExt → BatchSolverOutcome

/-- The reconciliation loop of SolveIntents: for each ext entry, the batch
index is looked up by hash (a missing hash gives the Go map zero value 0);
Unsolved, Expired, Invalid and Received drop the operation from the batch;
Solved copies calldata, signature and the five gas/fee fields of the
response operation at the same position onto the batch operation; any other
status aborts with an unknown-processing-status error.  A Solved position
with no response operation is skipped here (the source would panic indexing
body.UserOps there; no claim depends on it). -/
def solveIntentsLoop (indices : List (String × Nat)) :
    List UserOperationExt → List UserOperation → Nat → BatchHandlerCtx →
    BatchHandlerCtx × Except String Unit
  | [], _, _, ctx => (ctx, Except.ok ())
  | ext :: rest, respOps, idx, ctx =>
    let batchIndex := (alistLookup indices ext.originalHashValue).getD 0
    match ext.processingStatus with
    | IntentStatus.unsolved =>
      solveIntentsLoop indices rest respOps (idx + 1)
        (BatchHandlerCtx.markOpIndexForRemoval ctx batchIndex)
    | IntentStatus.expired =>
      solveIntentsLoop indices rest respOps (idx + 1)
        (BatchHandlerCtx.markOpIndexForRemoval ctx batchIndex)
    | IntentStatus.invalid =>
      solveIntentsLoop indices rest respOps (idx + 1)
        (BatchHandlerCtx.markOpIndexForRemoval ctx batchIndex)
    | IntentStatus.received =>
      solveIntentsLoop indices rest respOps (idx + 1)
        (BatchHandlerCtx.markOpIndexForRemoval ctx batchIndex)
    | IntentStatus.solved =>
      match respOps[idx]? with
      | some solvedOp =>
        match ctx.batch[batchIndex]? with
        | some old =>
          let updated :=
            { old with
              callData := solvedOp.callData,
              signature := solvedOp.signature,
              callGasLimit := solvedOp.callGasLimit,
              verificationGasLimit := solvedOp.verificationGasLimit,
              preVerificationGas := solvedOp.preVerificationGas,
              maxFeePerGas := solvedOp.maxFeePerGas,
              maxPriorityFeePerGas := solvedOp.maxPriorityFeePerGas }
          solveIntentsLoop indices rest respOps (idx + 1)
            { ctx with batch := ctx.batch.set batchIndex updated }
        | none => solveIntentsLoop indices rest respOps (idx + 1) ctx
      | none => solveIntentsLoop indices rest respOps (idx + 1) ctx
    | IntentStatus.sentToSolver =>
      (ctx, Except.error "unknown processing status")
    | IntentStatus.unknown _ =>
      (ctx, Except.error "unknown processing status")

/-- The BatchHandlerFunc returned by IntentsHandler.SolveIntents, as a
function of the context and the Solver outcome.  A batch without intent
operations returns nil without calling the Solver; a transport error is
returned unchanged to the caller of the handler; otherwise the reply is
reconciled entry by entry. -/
def solveIntentsHandler (ctx : BatchHandlerCtx) (outcome : BatchSolverOutcome) :
    BatchHandlerCtx × Except String Unit :=
  let buffered := bufferIntentOps ctx.batch
  if buffered.1.length = 0 then (ctx, Except.ok ())
  else
    match outcome with
    | BatchSolverOutcome.transportError msg => (ctx, Except.error msg)
    | BatchSolverOutcome.response respOps respExt =>
      solveIntentsLoop buffered.2.2 respExt respOps 0 ctx

/-! ## Relayer (modules/relay, staged as src/unnamed/part_008)

transaction.EstimateHandleOpsGas and transaction.HandleOps live outside the
staged sources; spec section 6 gives their contract (EntryPoint estimateGas
over handleOps, with the FailedOp(opIndex, reason) revert shape, and the
signed handleOps submission), so the relayer is parameterised by an
estimator and a submitter over the batch it hands them. -/

inductive EstimateOutcome where
  | success : Nat → EstimateOutcome
  | revert : Nat → String → EstimateOutcome
  | failure : String → EstimateOutcome

inductive EstLoopExit where
  | proceed : Nat → EstLoopExit
  | errored : String → EstLoopExit
  | spin : EstLoopExit
  deriving DecidableEq

structure EstLoopResult where
  ctx : BatchHandlerCtx
  estRevertReasons : List String
  estCalls : List (List UserOperation)
  exit : EstLoopExit

/-- The estimation loop of Relayer.SendUserOperation, as written: while the
filtered batch is non-empty, estimate; a revert marks the reverting index on
the CONTEXT batch and appends the reason, and the loop continues with the
SAME opts batch (neither opts.Batch nor nonIntentsBatch is ever reassigned
in the source); success stores the gas and breaks; any other error returns
it.  estCalls records the batch handed to the estimator on each iteration.
The fuel argument bounds the iterations the embedding unfolds; exhausting it
(exit spin) models the source looping without terminating. -/
def estimationLoop (est : List UserOperation → EstimateOutcome) :
    Nat → List UserOperation → BatchHandlerCtx → List String → EstLoopResult
  | 0, _, ctx, estRev =>
    { ctx := ctx, estRevertReasons := estRev, estCalls := [], exit := EstLoopExit.spin }
  | Nat.succ fuel, opsBatch, ctx, estRev =>
    if opsBatch.length = 0 then
      { ctx := ctx, estRevertReasons := estRev, estCalls := [],
        exit := EstLoopExit.proceed 0 }
    else
      match est opsBatch with
      | EstimateOutcome.failure msg =>
        { ctx := ctx, estRevertReasons := estRev, estCalls := [opsBatch],
          exit := EstLoopExit.errored msg }
      | EstimateOutcome.revert opIndex reason =>
        let r := estimationLoop est fuel opsBatch
          (BatchHandlerCtx.markOpIndexForRemoval ctx opIndex) (estRev ++ [reason])
        { r with estCalls := opsBatch :: r.estCalls }
      | EstimateOutcome.success g =>
        { ctx := ctx, estRevertReasons := estRev, estCalls := [opsBatch],
          exit := EstLoopExit.proceed g }

/-- The classification loop at the top of Relayer.SendUserOperation: solved
intents are collected, conventional operations (no intent) are collected,
and unsolved intents are only logged.  Returns (nonIntentsBatch,
intentsBatch) in batch order. -/
def partitionBatch : List UserOperation → List UserOperation × List UserOperation
  | [] => ([], [])
  | op :: rest =>
    if op.isSolvedIntent then
      ((partitionBatch rest).1, op :: (partitionBatch rest).2)
    else if !op.hasIntent then
      (op :: (partitionBatch rest).1, (partitionBatch rest).2)
    else partitionBatch rest

structure RelayOutcome where
  ctx : BatchHandlerCtx
  estRevertReasons : List String
  estCalls : List (List UserOperation)
  submitted : List (List UserOperation)
  result : Option (Except String Unit)

/-- Relayer.SendUserOperation as a function of the estimator and submitter.
With conventional operations present, the estimation loop runs on the
conventional sub-batch and, if it proceeds, that SAME sub-batch is handed to
handleOps and the handler returns (solved intents are not submitted in that
round).  With only solved intents, they are submitted and a submission error
is swallowed.  submitted records each batch handed to handleOps; result none
models the handler never returning (the estimation loop spinning). -/
def relayerSendUserOperation (est : List UserOperation → EstimateOutcome)
    (submit : List UserOperation → Except String String) (fuel : Nat)
    (ctx : BatchHandlerCtx) : RelayOutcome :=
  let parts := partitionBatch ctx.batch
  let nonIntentsBatch := parts.1
  let intentsBatch := parts.2
  if nonIntentsBatch.length > 0 then
    let r := estimationLoop est fuel nonIntentsBatch ctx []
    match r.exit with
    | EstLoopExit.spin =>
      { ctx := r.ctx, estRevertReasons := r.estRevertReasons,
        estCalls := r.estCalls, submitted := [], result := none }
    | EstLoopExit.errored msg =>
      { ctx := r.ctx, estRevertReasons := r.estRevertReasons,
        estCalls := r.estCalls, submitted := [],
        result := some (Except.error msg) }
    | EstLoopExit.proceed _g =>
      match submit nonIntentsBatch with
      | Except.error msg =>
        { ctx := r.ctx, estRevertReasons := r.estRevertReasons,
          estCalls := r.estCalls, submitted := [nonIntentsBatch],
          result := some (Except.error msg) }
      | Except.ok _ =>
        { ctx := r.ctx, estRevertReasons := r.estRevertReasons,
          estCalls := r.estCalls, submitted := [nonIntentsBatch],
          result := some (Except.ok ()) }
  else if intentsBatch.length > 0 then
    match submit intentsBatch with
    | Except.error _ =>
      { ctx := ctx, estRevertReasons := [], estCalls := [],
        submitted := [intentsBatch], result := some (Except.ok ()) }
    | Except.ok _ =>
      { ctx := ctx, estRevertReasons := [], estCalls := [],
        submitted := [intentsBatch], result := some (Except.ok ()) }
  else
    { ctx := ctx, estRevertReasons := [], estCalls := [], submitted := [],
      result := some (Except.ok ()) }

/-- Modelled from the spec: the batch pipeline composes its handlers in
order and the first handler error fails the round (spec section 4.5 fails
the whole batch on a handler error; the relayer never runs then).  One round
with the solution handler followed by the relayer: the pair of the batches
submitted on chain this round and the round's result. -/
def processBatchRound (ctx : BatchHandlerCtx) (outcome : BatchSolverOutcome)
    (est : List UserOperation → EstimateOutcome)
    (submit : List UserOperation → Except String String) (fuel : Nat) :
    List (List UserOperation) × Except String Unit :=
  match solveIntentsHandler ctx outcome with
  | (_, Except.error msg) => ([], Except.error msg)
  | (ctx1, Except.ok _) =>
    let r := relayerSendUserOperation est submit fuel ctx1
    (r.submitted,
     match r.result with
     | some (Except.error m) => Except.error m
     | _ => Except.ok ())

/-! ## Validator gas check (modules/checks, staged as src/unnamed/part_008) -/

/-- Modelled from the spec: gas.Overhead.CalcPreVerificationGas is not among
the staged sources; spec section 4.3 describes it as a linear function of
the serialized calldata length plus a fixed overhead, and total (the staged
caller forwards an error the spec model never produces). -/
def calcPreVerificationGas (op : UserOperation) : Int :=
  21000 + 16 * (op.callData.length : Int)

/-- ValidateVerificationGas: reject when verificationGasLimit exceeds the
cap; accept intent operations without the preVerificationGas check; reject a
conventional operation whose preVerificationGas is below the calculated
minimum. -/
def validateVerificationGas (op : UserOperation) (maxVerificationGas : Int) :
    Except String Unit :=
  if op.verificationGasLimit > maxVerificationGas then
    Except.error "verificationGasLimit: exceeds maxVerificationGas"
  else if op.hasIntent then Except.ok ()
  else if op.preVerificationGas < calcPreVerificationGas op then
    Except.error "preVerificationGas: below expected gas"
  else Except.ok ()

/-! ## Concrete fixtures used by the closed theorems -/

/-- An intent calldata: a well-formed JSON object in the shape of spec
scenario 2. -/
def cdIntentObj : String := "\x7b\"kind\":\"swap\",\"sellToken\":\"TokenA\"\x7d"

/-- A conventional calldata: hex bytes, not JSON. -/
def cdConventional : String := "0xdeadbeef"

def opConv : UserOperation :=
  { sender := "0x3068", nonce := 11, callData := cdConventional,
    callGasLimit := 15000, verificationGasLimit := 58592,
    preVerificationGas := 60000, maxFeePerGas := 46341087878,
    maxPriorityFeePerGas := 46341087844, signature := "0xaa", opHash := "0xc1" }

def opConv2 : UserOperation :=
  { sender := "0x5aF2", nonce := 7, callData := cdConventional,
    callGasLimit := 20000, verificationGasLimit := 60000,
    preVerificationGas := 62000, maxFeePerGas := 46341087878,
    maxPriorityFeePerGas := 46341087800, signature := "0xbb", opHash := "0xc2" }

def opIntent : UserOperation :=
  { sender := "0x0A71", nonce := 3, callData := cdIntentObj,
    callGasLimit := 1, verificationGasLimit := 2, preVerificationGas := 3,
    maxFeePerGas := 4, maxPriorityFeePerGas := 5, signature := "0xcc",
    opHash := "0xi1", hasEVM := false }

/-- The operation body a Solver returns for a solved intent: EVM calldata,
an EVM-instructions signature tail, and the five gas and fee fields it
chose. -/
def opSolverReturned : UserOperation :=
  { sender := "0x0A71", nonce := 3, callData := "0xfeedbeef",
    callGasLimit := 111, verificationGasLimit := 222, preVerificationGas := 333,
    maxFeePerGas := 444, maxPriorityFeePerGas := 555, signature := "0xevmtail",
    opHash := "0xi1", hasEVM := true }

def intentC1 : Intent :=
  { sender := "0x0A71", kind := "swap", hash := "0xi1",
    createdAt := 10, expirationAt := 1000, status := IntentStatus.received }

def epC1 : EntryPointIntents :=
  { unsolved := Queue.enqueueHead (Queue.new Intent) "0xi1" intentC1,
    buffer := [("0xi1", opIntent)], invalidIntents := 0 }

/-- The reply the Solver gives on the tick path for a solved intent: the same
intent record with status Solved and the EVM calldata in its CallData. -/
def intentC5Solved : Intent :=
  { sender := "0x0A71", kind := "swap", hash := "0xi1",
    callData := "0xfeedface", createdAt := 10, expirationAt := 1000,
    status := IntentStatus.solved }

def ctxC2 : BatchHandlerCtx := { batch := [opConv, opIntent], pendingRemoval := [] }

def ctxC3 : BatchHandlerCtx := { batch := [opConv, opConv2], pendingRemoval := [] }

def ctxC7 : BatchHandlerCtx := { batch := [opConv], pendingRemoval := [] }

def estAlwaysOk : List UserOperation → EstimateOutcome :=
  fun _ => EstimateOutcome.success 500000

/-- An estimator that deterministically reverts blaming the operation at
index 0, the FailedOp(0, reason) shape of spec scenario 5. -/
def estRevertHead : List UserOperation → EstimateOutcome :=
  fun _ => EstimateOutcome.revert 0 "AA23 reverted"

def submitOk : List UserOperation → Except String String :=
  fun _ => Except.ok "0xtxnhash"

/-- Calldata that is valid JSON (a number) but not a JSON object: HasIntent
accepts it while decoding it into an Intent record fails. -/
def opBadIntent : UserOperation :=
  { sender := "0x0A71", nonce := 4, callData := "123", opHash := "0xbad" }

def stEmpty : ClientState :=
  { epIntents := EntryPointIntents.new, mempool := [] }

def qC9 : Queue Nat :=
  Queue.enqueueTail (Queue.enqueueTail (Queue.new Nat) "a" 1) "b" 2

/-! # Helper lemmas -/

theorem alistLookup_filter_ne {A : Type} (m : List (String × A)) (k k' : String)
    (h : k' ≠ k) : alistLookup (m.filter (fun p => p.1 ≠ k)) k' = alistLookup m k' := by
  induction m with
  | nil => rfl
  | cons p m ih =>
    by_cases hp : p.1 = k
    · simpa [List.filter_cons, alistLookup, hp, Ne.symm h, decide_not] using ih
    · by_cases hk' : p.1 = k'
      · simp [List.filter_cons, alistLookup, hp, hk', h, decide_not]
      · simpa [List.filter_cons, alistLookup, hp, hk', decide_not] using ih

theorem alistLookup_insert_self {A : Type} (m : List (String × A)) (k : String) (v : A) :
    alistLookup (alistInsert m k v) k = some v := by
  simp [alistInsert, alistLookup]

theorem alistLookup_insert_ne {A : Type} (m : List (String × A)) (k k' : String) (v : A)
    (h : k' ≠ k) : alistLookup (alistInsert m k v) k' = alistLookup m k' := by
  simp only [alistInsert, alistLookup, if_neg (Ne.symm h)]
  exact alistLookup_filter_ne m k k' h

theorem alistLookup_erase_self {A : Type} (m : List (String × A)) (k : String) :
    alistLookup (alistErase m k) k = none := by
  induction m with
  | nil => rfl
  | cons p m ih =>
    by_cases hp : p.1 = k
    · simpa [alistErase, List.filter_cons, alistLookup, hp, decide_not] using ih
    · simpa [alistErase, List.filter_cons, alistLookup, hp, decide_not] using ih

theorem updateKeysAfterEnqueue_zero_lookup (m : List (String × Nat)) (k : String) :
    alistLookup (updateKeysAfterEnqueue m 0) k = (alistLookup m k).map (· + 1) := by
  induction m with
  | nil => rfl
  | cons p m ih =>
    by_cases hp : p.1 = k
    · simp [updateKeysAfterEnqueue, alistLookup, hp]
    · simpa [updateKeysAfterEnqueue, alistLookup, hp] using ih

theorem updateKeysAfterEnqueue_fst (m : List (String × Nat)) (i : Nat) :
    (updateKeysAfterEnqueue m i).map Prod.fst = m.map Prod.fst := by
  induction m with
  | nil => rfl
  | cons p m ih =>
    by_cases hp : p.2 ≥ i
    · simp [updateKeysAfterEnqueue, hp] at ih ⊢
      exact ih
    · simp [updateKeysAfterEnqueue, hp] at ih ⊢
      exact ih

theorem alistInsert_fst_nodup {A : Type} (m : List (String × A)) (k : String) (v : A)
    (h : alistNodupKeys m) : alistNodupKeys (alistInsert m k v) := by
  have hsub : ((m.filter (fun p => p.1 ≠ k)).map Prod.fst).Sublist (m.map Prod.fst) :=
    List.Sublist.map Prod.fst (List.filter_sublist m)
  refine List.Nodup.cons ?_ (List.Nodup.sublist hsub h)
  intro hk
  rcases List.mem_map.mp hk with ⟨p, hpmem, hpk⟩
  rcases List.mem_filter.mp hpmem with ⟨_, hne⟩
  simp [hpk] at hne

theorem shiftKeysAfterDelete_fst_sublist (m : List (String × Nat)) (i : Nat) :
    ((shiftKeysAfterDelete m i).map Prod.fst).Sublist (m.map Prod.fst) := by
  induction m with
  | nil => simp [shiftKeysAfterDelete]
  | cons p m ih =>
    by_cases h1 : p.2 > i
    · simpa [shiftKeysAfterDelete, List.filterMap_cons, h1] using List.Sublist.cons₂ p.1 ih
    · by_cases h2 : p.2 = i
      · simpa [shiftKeysAfterDelete, List.filterMap_cons, h1, h2] using List.Sublist.cons p.1 ih
      · simpa [shiftKeysAfterDelete, List.filterMap_cons, h1, h2] using List.Sublist.cons₂ p.1 ih

theorem shiftKeysAfterDelete_nodup (m : List (String × Nat)) (i : Nat)
    (h : alistNodupKeys m) : alistNodupKeys (shiftKeysAfterDelete m i) :=
  List.Nodup.sublist (shiftKeysAfterDelete_fst_sublist m i) h

theorem alistLookup_none_iff {A : Type} (m : List (String × A)) (k : String) :
    alistLookup m k = none ↔ ∀ p ∈ m, p.1 ≠ k := by
  induction m with
  | nil => simp [alistLookup]
  | cons p m ih =>
    by_cases hp : p.1 = k
    · simp [alistLookup, hp]
    · simp [alistLookup, hp, ih]

theorem shiftKeysAfterDelete_lookup_none (m : List (String × Nat)) (i : Nat) (k : String)
    (h : alistLookup m k = none) : alistLookup (shiftKeysAfterDelete m i) k = none := by
  rw [alistLookup_none_iff] at h ⊢
  intro q hq
  rcases List.mem_filterMap.mp hq with ⟨p, hpmem, hpf⟩
  by_cases h1 : p.2 > i
  · rw [if_pos h1] at hpf
    injection hpf with he
    subst he
    exact h p hpmem
  · rw [if_neg h1] at hpf
    by_cases h2 : p.2 = i
    · rw [if_pos h2] at hpf
      exact absurd hpf (by simp)
    · rw [if_neg h2] at hpf
      injection hpf with he
      subst he
      exact h p hpmem

theorem shiftKeysAfterDelete_lookup_some (m : List (String × Nat)) (i j : Nat) (k : String)
    (hnd : alistNodupKeys m) (h : alistLookup m k = some j) :
    alistLookup (shiftKeysAfterDelete m i) k =
      if j = i then none else if i < j then some (j - 1) else some j := by
  induction m with
  | nil => simp [alistLookup] at h
  | cons p m ih =>
    have hnd2 : alistNodupKeys m := (List.nodup_cons.mp hnd).2
    by_cases hp : p.1 = k
    · have hj : p.2 = j := by simpa [alistLookup, hp] using h
      have hkn : alistLookup m k = none := by
        rw [alistLookup_none_iff]
        intro q hq hqk
        exact (List.nodup_cons.mp hnd).1
          (by rw [hp, ← hqk]; exact List.mem_map_of_mem Prod.fst hq)
      subst hj
      by_cases h1 : p.2 > i
      · have hne : ¬ p.2 = i := by omega
        simp [shiftKeysAfterDelete, List.filterMap_cons, h1, alistLookup, hp, hne]
      · by_cases h2 : p.2 = i
        · simpa [shiftKeysAfterDelete, List.filterMap_cons, h1, h2]
            using shiftKeysAfterDelete_lookup_none m i k hkn
        · have hni : ¬ i < p.2 := by omega
          simp [shiftKeysAfterDelete, List.filterMap_cons, h1, h2, alistLookup, hp, hni]
    · have htail : alistLookup m k = some j := by simpa [alistLookup, hp] using h
      by_cases h1 : p.2 > i
      · simpa [shiftKeysAfterDelete, List.filterMap_cons, h1, alistLookup, hp]
          using ih hnd2 htail
      · by_cases h2 : p.2 = i
        · simpa [shiftKeysAfterDelete, List.filterMap_cons, h1, h2]
            using ih hnd2 htail
        · simpa [shiftKeysAfterDelete, List.filterMap_cons, h1, h2, alistLookup, hp]
            using ih hnd2 htail

theorem refFindIndex_none_iff {T : Type} (r : List (String × T)) (k : String) :
    refFindIndex r k = none ↔ ∀ p ∈ r, p.1 ≠ k := by
  induction r with
  | nil => simp [refFindIndex]
  | cons p r ih =>
    by_cases hp : p.1 = k
    · simp [refFindIndex, hp]
    · simp [refFindIndex, hp, ih]

theorem refFindIndex_eraseIdx_ne {T : Type} (r : List (String × T)) :
    ∀ (i j : Nat) (k : String), refFindIndex r k = some j → j ≠ i →
      refFindIndex (r.eraseIdx i) k = if i < j then some (j - 1) else some j := by
  induction r with
  | nil => intro i j k h _; simp [refFindIndex] at h
  | cons p r ih =>
    intro i j k h hne
    by_cases hp : p.1 = k
    · have hj : j = 0 := by
        have := h
        simp [refFindIndex, hp] at this
        omega
      subst hj
      cases i with
      | zero => exact absurd rfl hne
      | succ i2 => simp [List.eraseIdx_cons_succ, refFindIndex, hp]
    · have hmap : (refFindIndex r k).map (· + 1) = some j := by
        simpa [refFindIndex, hp] using h
      rcases Option.map_eq_some'.mp hmap with ⟨j2, hj2, hjeq⟩
      cases i with
      | zero =>
        have hpos : 0 < j := by omega
        simp [List.eraseIdx_cons_zero, if_pos hpos, hj2, hjeq]
        omega
      | succ i2 =>
        have hrec := ih i2 j2 k hj2 (by omega)
        by_cases hij : i2 < j2
        · have : i2 + 1 < j := by omega
          simp [List.eraseIdx_cons_succ, refFindIndex, hp, hrec, hij, this]
          omega
        · have : ¬ i2 + 1 < j := by omega
          simp [List.eraseIdx_cons_succ, refFindIndex, hp, hrec, hij, this]
          omega

theorem refFindIndex_eraseIdx_self {T : Type} (r : List (String × T)) :
    ∀ (i : Nat) (k : String), (r.map Prod.fst).Nodup → refFindIndex r k = some i →
      refFindIndex (r.eraseIdx i) k = none := by
  induction r with
  | nil => intro i k _ h; simp [refFindIndex] at h
  | cons p r ih =>
    intro i k hnd h
    by_cases hp : p.1 = k
    · have hi : i = 0 := by
        have := h
        simp [refFindIndex, hp] at this
        omega
      subst hi
      rw [List.eraseIdx_cons_zero, refFindIndex_none_iff]
      intro q hq hqk
      exact (List.nodup_cons.mp hnd).1
        (by rw [hp, ← hqk]; exact List.mem_map_of_mem Prod.fst hq)
    · have hmap : (refFindIndex r k).map (· + 1) = some i := by
        simpa [refFindIndex, hp] using h
      rcases Option.map_eq_some'.mp hmap with ⟨i2, hi2, hieq⟩
      cases i with
      | zero => omega
      | succ i3 =>
        have : i2 = i3 := by omega
        subst this
        simp [List.eraseIdx_cons_succ, refFindIndex, hp,
          ih i2 k (List.nodup_cons.mp hnd).2 hi2]

theorem mapSnd_eraseIdx {T : Type} (r : List (String × T)) :
    ∀ i : Nat, (r.eraseIdx i).map Prod.snd = (r.map Prod.snd).eraseIdx i := by
  induction r with
  | nil => intro i; simp
  | cons p r ih =>
    intro i
    cases i with
    | zero => simp
    | succ i2 => simp [List.eraseIdx_cons_succ, ih i2]

theorem refFindIndex_append_single {T : Type} (r : List (String × T)) (k k' : String) (x : T) :
    refFindIndex (r ++ [(k, x)]) k' =
      match refFindIndex r k' with
      | some j => some j
      | none => if k = k' then some r.length else none := by
  induction r with
  | nil => simp [refFindIndex]
  | cons p r ih =>
    by_cases hp : p.1 = k'
    · simp [refFindIndex, hp]
    · have hstep : refFindIndex ((p :: r) ++ [(k, x)]) k' =
          Option.map (· + 1) (refFindIndex (r ++ [(k, x)]) k') := by
        simp [refFindIndex, hp]
      have hstep2 : refFindIndex (p :: r) k' = Option.map (· + 1) (refFindIndex r k') := by
        simp [refFindIndex, hp]
      rw [hstep, ih, hstep2]
      cases hr : refFindIndex r k' with
      | some j => simp
      | none =>
        by_cases hk : k = k'
        · simp [hk]
        · simp [hk]

theorem coherent_enqueueHead {T : Type} (q : Queue T) (r : List (String × T))
    (k : String) (x : T) (hc : coherentWith q r) (hfresh : refFindIndex r k = none) :
    coherentWith (Queue.enqueueHead q k x) ((k, x) :: r) := by
  obtain ⟨hitems, hnd, hlook⟩ := hc
  refine ⟨by simp [Queue.enqueueHead, hitems], ?_, ?_⟩
  · apply alistInsert_fst_nodup
    unfold alistNodupKeys
    rw [updateKeysAfterEnqueue_fst]
    exact hnd
  · intro k'
    by_cases hk : k' = k
    · subst hk
      rw [Queue.enqueueHead]
      simp [alistLookup_insert_self, refFindIndex]
    · have hk2 : ¬ (k = k') := fun e => hk e.symm
      rw [Queue.enqueueHead]
      simp only [alistLookup_insert_ne _ _ _ _ hk,
        updateKeysAfterEnqueue_zero_lookup, hlook k']
      simp [refFindIndex, hk2]

theorem coherent_enqueueTail {T : Type} (q : Queue T) (r : List (String × T))
    (k : String) (x : T) (hc : coherentWith q r) (hfresh : refFindIndex r k = none) :
    coherentWith (Queue.enqueueTail q k x) (r ++ [(k, x)]) := by
  obtain ⟨hitems, hnd, hlook⟩ := hc
  have hlen : q.items.length = r.length := by rw [hitems, List.length_map]
  refine ⟨by simp [Queue.enqueueTail, hitems], ?_, ?_⟩
  · exact alistInsert_fst_nodup _ _ _ hnd
  · intro k'
    by_cases hk : k' = k
    · subst hk
      rw [Queue.enqueueTail]
      simp only [alistLookup_insert_self, refFindIndex_append_single, hfresh, hlen]
      simp
    · have hk2 : ¬ (k = k') := fun e => hk e.symm
      rw [Queue.enqueueTail]
      simp only [alistLookup_insert_ne _ _ _ _ hk, hlook k', refFindIndex_append_single]
      cases hr : refFindIndex r k' with
      | some j => simp
      | none => simp [hk2]

theorem coherent_delete {T : Type} (q : Queue T) (r : List (String × T)) (i : Nat)
    (hc : coherentWith q r) (hrnd : (r.map Prod.fst).Nodup) (hi : i < r.length) :
    (Queue.delete q (i : Int)).2 = none ∧
    coherentWith (Queue.delete q (i : Int)).1 (r.eraseIdx i) := by
  obtain ⟨hitems, hnd, hlook⟩ := hc
  have hlen : q.items.length = r.length := by rw [hitems, List.length_map]
  have hdel : Queue.delete q (i : Int) =
      ({ items := q.items.eraseIdx i, keys := shiftKeysAfterDelete q.keys i }, none) := by
    unfold Queue.delete
    rw [if_neg]
    · simp
    · simp only [Bool.or_eq_true, decide_eq_true_eq]
      push_neg
      constructor
      · omega
      · rw [hlen]
        exact_mod_cast Nat.lt_of_lt_of_le hi (Nat.le_refl _)
  refine ⟨by rw [hdel], ?_, ?_, ?_⟩
  · rw [hdel]
    simp [hitems, mapSnd_eraseIdx]
  · rw [hdel]
    exact shiftKeysAfterDelete_nodup _ _ hnd
  · intro k
    rw [hdel]
    cases hr : refFindIndex r k with
    | none =>
      show alistLookup (shiftKeysAfterDelete q.keys i) k = refFindIndex (r.eraseIdx i) k
      rw [shiftKeysAfterDelete_lookup_none _ _ _ (by rw [hlook k, hr])]
      have hall : ∀ p ∈ r.eraseIdx i, p.1 ≠ k := by
        intro p hp
        exact (refFindIndex_none_iff r k).mp hr p
          (List.Sublist.mem hp (List.eraseIdx_sublist r i))
      exact ((refFindIndex_none_iff _ k).mpr hall).symm
    | some j =>
      show alistLookup (shiftKeysAfterDelete q.keys i) k = refFindIndex (r.eraseIdx i) k
      by_cases hji : j = i
      · subst hji
        rw [shiftKeysAfterDelete_lookup_some _ _ _ _ hnd (by rw [hlook k, hr])]
        simp [refFindIndex_eraseIdx_self r j k hrnd hr]
      · rw [shiftKeysAfterDelete_lookup_some _ _ _ _ hnd (by rw [hlook k, hr])]
        rw [refFindIndex_eraseIdx_ne r i j k hr hji]
        simp [hji]

theorem partitionBatch_fst_conventional :
    ∀ (l : List UserOperation) (op : UserOperation),
      op ∈ (partitionBatch l).1 → op.hasIntent = false
  | [], op, h => by simp [partitionBatch] at h
  | a :: rest, op, h => by
    by_cases h1 : a.isSolvedIntent
    · simp only [partitionBatch, if_pos h1] at h
      exact partitionBatch_fst_conventional rest op h
    · by_cases h2 : a.hasIntent
      · simp only [partitionBatch, if_neg h1] at h
        rw [if_neg (by simp [h2])] at h
        exact partitionBatch_fst_conventional rest op h
      · simp only [partitionBatch, if_neg h1] at h
        rw [if_pos (by simp [Bool.eq_false_iff.mpr h2])] at h
        cases List.mem_cons.mp h with
        | inl he => rw [he]; exact Bool.eq_false_iff.mpr h2
        | inr ht => exact partitionBatch_fst_conventional rest op ht

theorem partitionBatch_snd_solved :
    ∀ (l : List UserOperation) (op : UserOperation),
      op ∈ (partitionBatch l).2 → op.isSolvedIntent = true
  | [], op, h => by simp [partitionBatch] at h
  | a :: rest, op, h => by
    by_cases h1 : a.isSolvedIntent
    · simp only [partitionBatch, if_pos h1] at h
      cases List.mem_cons.mp h with
      | inl he => rw [he]; exact h1
      | inr ht => exact partitionBatch_snd_solved rest op ht
    · by_cases h2 : a.hasIntent
      · simp only [partitionBatch, if_neg h1] at h
        rw [if_neg (by simp [h2])] at h
        exact partitionBatch_snd_solved rest op h
      · simp only [partitionBatch, if_neg h1] at h
        rw [if_pos (by simp [Bool.eq_false_iff.mpr h2])] at h
        exact partitionBatch_snd_solved rest op h

theorem bufferIntentOpsAux_ne_nil :
    ∀ (l : List UserOperation) (i : Nat) (op : UserOperation),
      op ∈ l → op.hasIntent = true → (bufferIntentOpsAux l i).1 ≠ []
  | [], _, op, h, _ => by simp at h
  | a :: rest, i, op, h, hi => by
    by_cases ha : a.hasIntent
    · simp [bufferIntentOpsAux, ha]
    · cases List.mem_cons.mp h with
      | inl he =>
        rw [he] at hi
        exact absurd hi (by simp [ha])
      | inr ht =>
        simp only [bufferIntentOpsAux, if_neg ha]
        exact bufferIntentOpsAux_ne_nil rest (i + 1) op ht hi

theorem relayer_submitted_cases (est : List UserOperation → EstimateOutcome)
    (submit : List UserOperation → Except String String) (fuel : Nat)
    (ctx : BatchHandlerCtx) (b : List UserOperation)
    (hb : b ∈ (relayerSendUserOperation est submit fuel ctx).submitted) :
    b = (partitionBatch ctx.batch).1 ∨ b = (partitionBatch ctx.batch).2 := by
  simp only [relayerSendUserOperation] at hb
  by_cases hn : (partitionBatch ctx.batch).1.length > 0
  · rw [if_pos hn] at hb
    cases hexit : (estimationLoop est fuel (partitionBatch ctx.batch).1 ctx []).exit with
    | spin => simp [hexit] at hb
    | errored msg => simp [hexit] at hb
    | proceed g =>
      cases hsub : submit (partitionBatch ctx.batch).1 with
      | error msg =>
        simp [hexit, hsub] at hb
        exact Or.inl hb
      | ok txn =>
        simp [hexit, hsub] at hb
        exact Or.inl hb
  · rw [if_neg hn] at hb
    by_cases h2 : (partitionBatch ctx.batch).2.length > 0
    · rw [if_pos h2] at hb
      cases hsub : submit (partitionBatch ctx.batch).2 with
      | error msg =>
        simp [hsub] at hb
        exact Or.inr hb
      | ok txn =>
        simp [hsub] at hb
        exact Or.inr hb
    · rw [if_neg h2] at hb
      simp at hb

/-! # Claim theorems -/

/-- Claim C10: Dequeue on an empty queue returns the zero value and false,
Peek and Delete reject an index outside the item range with an error, and in
each of these error branches the queue items and keys map are returned
unchanged. -/
theorem queue_error_branches_total (T : Type) [Inhabited T] (q : Queue T) (i : Int) :
    (q.items = [] → Queue.dequeue q = (default, false, q)) ∧
    ((i < 0 ∨ (q.items.length : Int) ≤ i) →
      Queue.peek q i = Except.error "index out of range" ∧
      Queue.delete q i = (q, some "index out of range")) := by
  constructor
  · intro h
    simp [Queue.dequeue, h]
  · intro h
    have hcond : (decide (i < 0) || decide ((q.items.length : Int) ≤ i)) = true := by
      rcases h with h | h <;> simp [h]
    constructor
    · unfold Queue.peek
      rw [if_pos hcond]
    · unfold Queue.delete
      rw [if_pos hcond]

/-- Witness for C10 at a concrete queue and index. -/
theorem queue_error_branches_total_run :
    Queue.dequeue (Queue.new Nat) = (0, false, Queue.new Nat) ∧
    Queue.peek qC9 5 = Except.error "index out of range" ∧
    Queue.delete qC9 (-1) = (qC9, some "index out of range") :=
  ⟨(queue_error_branches_total Nat (Queue.new Nat) 0).1 rfl,
   ((queue_error_branches_total Nat qC9 5).2 (by decide)).1,
   ((queue_error_branches_total Nat qC9 (-1)).2 (by decide)).2⟩

/-- Claim C9 counterexample: after Dequeue the keys map still maps key b to
position 1 although the item enqueued under b now sits at position 0, and
after Reset the keys map still reports key a found at position 0 although
the queue holds no items at all; both states violate index coherence. -/
theorem queue_index_coherence_cex :
    Queue.findIndexByKey (Queue.dequeue qC9).2.2 "b" = (1, true) ∧
    (Queue.dequeue qC9).2.2.items = [2] ∧
    Queue.findIndexByKey (Queue.reset qC9 0) "a" = (0, true) ∧
    (Queue.reset qC9 0).items = [] ∧
    ¬ coherentWith (Queue.dequeue qC9).2.2 [("b", 2)] ∧
    ¬ coherentWith (Queue.reset qC9 0) ([] : List (String × Nat)) := by
  refine ⟨rfl, rfl, rfl, rfl, ?_, ?_⟩
  · intro h
    have h3 := h.2.2 "b"
    revert h3
    decide
  · intro h
    have h3 := h.2.2 "a"
    revert h3
    decide

/-- Claim C9 (amended): the hash-to-index map is kept coherent by
EnqueueHead, EnqueueTail and Delete (for fresh keys, respectively an
in-range index over a reference sequence with pairwise distinct keys), while
Dequeue and Reset leave the map stale, as the counterexample shows. -/
theorem queue_index_coherence_amended :
    (∀ (T : Type) (q : Queue T) (r : List (String × T)) (k : String) (x : T),
      coherentWith q r → refFindIndex r k = none →
      coherentWith (Queue.enqueueHead q k x) ((k, x) :: r)) ∧
    (∀ (T : Type) (q : Queue T) (r : List (String × T)) (k : String) (x : T),
      coherentWith q r → refFindIndex r k = none →
      coherentWith (Queue.enqueueTail q k x) (r ++ [(k, x)])) ∧
    (∀ (T : Type) (q : Queue T) (r : List (String × T)) (i : Nat),
      coherentWith q r → (r.map Prod.fst).Nodup → i < r.length →
      (Queue.delete q (i : Int)).2 = none ∧
      coherentWith (Queue.delete q (i : Int)).1 (r.eraseIdx i)) :=
  ⟨fun _ q r k x hc hf => coherent_enqueueHead q r k x hc hf,
   fun _ q r k x hc hf => coherent_enqueueTail q r k x hc hf,
   fun _ q r i hc hnd hi => coherent_delete q r i hc hnd hi⟩

/-- Witness for C9: a concrete run that chains the three coherent mutations
starting from the empty queue. -/
theorem queue_index_coherence_amended_run :
    coherentWith
      ((Queue.delete ((Queue.new Nat).enqueueHead "a" 1 |>.enqueueTail "b" 2) (0 : Nat)).1)
      [("b", 2)] := by
  have h0 : coherentWith (Queue.new Nat) ([] : List (String × Nat)) :=
    ⟨rfl, List.nodup_nil, fun _ => rfl⟩
  have h1 := queue_index_coherence_amended.1 Nat (Queue.new Nat) [] "a" 1 h0 rfl
  have h2 := queue_index_coherence_amended.2.1 Nat _ _ "b" 2 h1 (by decide)
  have h3 := (queue_index_coherence_amended.2.2 Nat _ _ 0 h2 (by decide) (by decide)).2
  simpa using h3

/-- Claim C1 counterexample: the tick-path dispatch snapshots one intent,
hits a transport error, and leaves the unsolved queue EMPTY instead of
putting the snapshot back at the head of the queue. -/
theorem tick_transport_cex :
    epC1.unsolved.items = [intentC1] ∧
    (sendToSolverTick epC1 TickSolverOutcome.transportError 0).1.unsolved.items = [] :=
  ⟨rfl, rfl⟩

/-- Claim C1 (amended): on a Solver transport error the tick-path dispatch
drops the snapshotted intents from the unsolved queue (the queue stays as
Reset left it: empty), emits nothing, and touches neither the buffer nor
the InvalidIntents counter; the error is not propagated anywhere (the
closure just returns). -/
theorem tick_transport_amended (ep : EntryPointIntents) (now : Int)
    (h : ep.unsolved.items ≠ []) :
    (sendToSolverTick ep TickSolverOutcome.transportError now).1.unsolved.items = [] ∧
    (sendToSolverTick ep TickSolverOutcome.transportError now).1.buffer = ep.buffer ∧
    (sendToSolverTick ep TickSolverOutcome.transportError now).1.invalidIntents =
      ep.invalidIntents ∧
    (sendToSolverTick ep TickSolverOutcome.transportError now).2 = [] := by
  have hlen : ¬ (Queue.toSlice ep.unsolved).length = 0 := by
    simpa [Queue.toSlice, List.length_eq_zero] using h
  simp [sendToSolverTick, hlen, Queue.reset]

/-- Witness for C1 at the concrete one-intent pipeline state. -/
theorem tick_transport_amended_run :
    (sendToSolverTick epC1 TickSolverOutcome.transportError 0).1.unsolved.items = [] ∧
    (sendToSolverTick epC1 TickSolverOutcome.transportError 0).1.buffer = epC1.buffer ∧
    (sendToSolverTick epC1 TickSolverOutcome.transportError 0).1.invalidIntents =
      epC1.invalidIntents ∧
    (sendToSolverTick epC1 TickSolverOutcome.transportError 0).2 = [] :=
  tick_transport_amended epC1 0 (by decide)

/-- Claim C2 counterexample: at batch time, a Solver transport error is
returned by the SolveIntents handler as the handler's own error, so the
round aborts and the batch's conventional operation is NOT submitted in that
round. -/
theorem batch_transport_cex :
    solveIntentsHandler ctxC2 (BatchSolverOutcome.transportError "connection refused") =
      (ctxC2, Except.error "connection refused") ∧
    processBatchRound ctxC2 (BatchSolverOutcome.transportError "connection refused")
      estAlwaysOk submitOk 10 = ([], Except.error "connection refused") :=
  ⟨rfl, rfl⟩

/-- Claim C2 (amended): a batch-time Solver transport error is indeed not
retried and removes nothing from the batch or the mempool (the context is
returned untouched), but the error IS propagated as the failure of the
whole batch handler chain: the round returns the error and nothing is
submitted on chain, the conventional operations included. -/
theorem batch_transport_amended (ctx : BatchHandlerCtx) (msg : String)
    (op : UserOperation) (hop : op ∈ ctx.batch) (hi : op.hasIntent = true)
    (est : List UserOperation → EstimateOutcome)
    (submit : List UserOperation → Except String String) (fuel : Nat) :
    solveIntentsHandler ctx (BatchSolverOutcome.transportError msg) =
      (ctx, Except.error msg) ∧
    processBatchRound ctx (BatchSolverOutcome.transportError msg) est submit fuel =
      ([], Except.error msg) := by
  have hne : (bufferIntentOps ctx.batch).1 ≠ [] :=
    bufferIntentOpsAux_ne_nil ctx.batch 0 op hop hi
  have hlen : ¬ (bufferIntentOps ctx.batch).1.length = 0 := by
    simpa [List.length_eq_zero] using hne
  constructor
  · simp [solveIntentsHandler, hlen]
  · simp [processBatchRound, solveIntentsHandler, hlen]

/-- Witness for C2 at the concrete two-operation batch. -/
theorem batch_transport_amended_run :
    solveIntentsHandler ctxC2 (BatchSolverOutcome.transportError "no route to host") =
      (ctxC2, Except.error "no route to host") ∧
    processBatchRound ctxC2 (BatchSolverOutcome.transportError "no route to host")
      estAlwaysOk submitOk 3 = ([], Except.error "no route to host") :=
  batch_transport_amended ctxC2 "no route to host" opIntent (by decide) (by decide)
    estAlwaysOk submitOk 3

/-- Claim C3: the relayer estimation loop never shrinks the batch it hands
to the estimator.  With a two-operation conventional batch and an estimator
that deterministically reverts blaming index 0, every iteration estimates
the identical full batch (never the one-operation remainder the spec
requires), nothing is submitted, and the loop never terminates (fuel runs
out in the spin state). -/
theorem relayer_estimation_loop_stuck :
    (relayerSendUserOperation estRevertHead submitOk 3 ctxC3).estCalls =
      [[opConv, opConv2], [opConv, opConv2], [opConv, opConv2]] ∧
    (relayerSendUserOperation estRevertHead submitOk 3 ctxC3).submitted = [] ∧
    (relayerSendUserOperation estRevertHead submitOk 3 ctxC3).result = none ∧
    (relayerSendUserOperation estRevertHead submitOk 3 ctxC3).estRevertReasons =
      ["AA23 reverted", "AA23 reverted", "AA23 reverted"] :=
  ⟨rfl, rfl, rfl, rfl⟩

/-- Claim C4 counterexample: an admitted operation whose calldata is valid
JSON but not a decodable Intent (the JSON number 123) increments
InvalidIntents by one, is tracked nowhere in the pipeline, and yet REMAINS
in the mempool: the rejection the spec requires never happens because
processIntent discards identifyIntent's failure result. -/
theorem invalid_intent_cex :
    (admitUserOperation stEmpty opBadIntent 5).epIntents.invalidIntents = 1 ∧
    (admitUserOperation stEmpty opBadIntent 5).mempool = [opBadIntent] ∧
    (admitUserOperation stEmpty opBadIntent 5).epIntents.unsolved.items = [] ∧
    (admitUserOperation stEmpty opBadIntent 5).epIntents.buffer = [] :=
  ⟨rfl, rfl, rfl, rfl⟩

/-- Claim C4 (amended): for an admitted operation whose calldata is
detected as an intent but fails to decode into an Intent record, the
entry point's InvalidIntents counter is incremented by one, the intent is
not tracked (queue and buffer untouched), and the operation is RETAINED in
the mempool: identifyIntent's false return value is discarded by
processIntent, so the admission path never learns of the failure. -/
theorem invalid_intent_amended (st : ClientState) (op : UserOperation) (now : Int)
    (hi : op.hasIntent = true) (hbad : unmarshalIntent op.callData = none) :
    admitUserOperation st op now =
      { epIntents :=
          { st.epIntents with invalidIntents := st.epIntents.invalidIntents + 1 },
        mempool := st.mempool ++ [op] } := by
  simp [admitUserOperation, processIntentStep, identifyIntent, hi, hbad]

/-- Witness for C4 at the concrete malformed-intent operation. -/
theorem invalid_intent_amended_run :
    admitUserOperation stEmpty opBadIntent 5 =
      { epIntents :=
          { stEmpty.epIntents with
            invalidIntents := stEmpty.epIntents.invalidIntents + 1 },
        mempool := stEmpty.mempool ++ [opBadIntent] } :=
  invalid_intent_amended stEmpty opBadIntent 5 (by decide) (by decide)

/-- Claim C5 counterexample: on the tick path a Solved response replaces
ONLY the calldata of the buffered operation; the signature and all five
gas and fee fields are exactly the operation's original values, not values
returned by the Solver (the tick-path reply does not even carry gas
fields).  The emitted record differs from the original operation in the
calldata alone. -/
theorem tick_solved_cex :
    (sendToSolverTick epC1 (TickSolverOutcome.response [intentC5Solved]) 0).2 =
      [{ opIntent with callData := "0xfeedface" }] ∧
    (sendToSolverTick epC1 (TickSolverOutcome.response [intentC5Solved]) 0).1.buffer =
      [] :=
  ⟨rfl, rfl⟩

/-- Claim C5 (amended): a Solved intent is applied differently on the two
paths.  On the tick path, the buffered operation gets the Solver-returned
calldata and is removed from the buffer, but no gas or fee field changes.
On the batch-time path, the correlated batch operation (matched by hash)
gets the Solver-returned calldata, signature AND all five gas and fee
fields. -/
theorem solved_solution_applied_amended :
    (∀ (ep : EntryPointIntents) (it : Intent) (op : UserOperation) (now : Int),
      ep.unsolved.items ≠ [] → it.status = IntentStatus.solved →
      ¬ it.expirationAt < now → alistLookup ep.buffer it.hash = some op →
      (sendToSolverTick ep (TickSolverOutcome.response [it]) now).2 =
        [{ op with callData := it.callData }] ∧
      alistLookup (sendToSolverTick ep (TickSolverOutcome.response [it]) now).1.buffer
        it.hash = none) ∧
    (∀ (convOp intentOp solvedOp : UserOperation),
      convOp.hasIntent = false → intentOp.hasIntent = true →
      solveIntentsHandler { batch := [convOp, intentOp], pendingRemoval := [] }
          (BatchSolverOutcome.response [solvedOp]
            [{ originalHashValue := intentOp.opHash,
               processingStatus := IntentStatus.solved }]) =
        ({ batch :=
            [convOp,
             { intentOp with
               callData := solvedOp.callData,
               signature := solvedOp.signature,
               callGasLimit := solvedOp.callGasLimit,
               verificationGasLimit := solvedOp.verificationGasLimit,
               preVerificationGas := solvedOp.preVerificationGas,
               maxFeePerGas := solvedOp.maxFeePerGas,
               maxPriorityFeePerGas := solvedOp.maxPriorityFeePerGas }],
           pendingRemoval := [] },
         Except.ok ())) := by
  constructor
  · intro ep it op now hne hst hexp hbuf
    have hlen : ¬ (Queue.toSlice ep.unsolved).length = 0 := by
      simpa [Queue.toSlice, List.length_eq_zero] using hne
    simp only [sendToSolverTick, Queue.toSlice, hlen, if_neg hlen]
    constructor
    · simp [processTickResponses, hexp, hst, hbuf, hne]
    · simp [processTickResponses, hexp, hst, hbuf, hne, alistLookup_erase_self]
  · intro convOp intentOp solvedOp hconv hint
    simp [solveIntentsHandler, bufferIntentOps, bufferIntentOpsAux, hconv, hint,
      solveIntentsLoop, alistLookup, BatchHandlerCtx.markOpIndexForRemoval,
      List.set]

/-- Witness for C5 at concrete operations on both paths. -/
theorem solved_solution_applied_amended_run :
    (sendToSolverTick epC1 (TickSolverOutcome.response [intentC5Solved]) 0).2 =
      [{ opIntent with callData := intentC5Solved.callData }] ∧
    solveIntentsHandler { batch := [opConv, opIntent], pendingRemoval := [] }
        (BatchSolverOutcome.response [opSolverReturned]
          [{ originalHashValue := opIntent.opHash,
             processingStatus := IntentStatus.solved }]) =
      ({ batch :=
          [opConv,
           { opIntent with
             callData := opSolverReturned.callData,
             signature := opSolverReturned.signature,
             callGasLimit := opSolverReturned.callGasLimit,
             verificationGasLimit := opSolverReturned.verificationGasLimit,
             preVerificationGas := opSolverReturned.preVerificationGas,
             maxFeePerGas := opSolverReturned.maxFeePerGas,
             maxPriorityFeePerGas := opSolverReturned.maxPriorityFeePerGas }],
         pendingRemoval := [] },
       Except.ok ()) :=
  ⟨((solved_solution_applied_amended.1 epC1 intentC5Solved opIntent 0
      (by decide) rfl (by decide) (by decide))).1,
   solved_solution_applied_amended.2 opConv opIntent opSolverReturned
     (by decide) (by decide)⟩

/-- Claim C6: the validator gas check rejects an operation whose
verificationGasLimit exceeds the cap; within the cap it accepts every
intent operation unconditionally, and accepts a conventional operation
exactly when its preVerificationGas is at least CalcPreVerificationGas. -/
theorem validate_verification_gas_spec (op : UserOperation) (maxVG : Int) :
    (maxVG < op.verificationGasLimit →
      validateVerificationGas op maxVG =
        Except.error "verificationGasLimit: exceeds maxVerificationGas") ∧
    (op.verificationGasLimit ≤ maxVG → op.hasIntent = true →
      validateVerificationGas op maxVG = Except.ok ()) ∧
    (op.verificationGasLimit ≤ maxVG → op.hasIntent = false →
      (validateVerificationGas op maxVG = Except.ok () ↔
        calcPreVerificationGas op ≤ op.preVerificationGas)) := by
  refine ⟨fun h => ?_, fun h1 h2 => ?_, fun h1 h2 => ?_⟩
  · simp [validateVerificationGas, h]
  · simp [validateVerificationGas, not_lt.mpr h1, h2]
  · rw [validateVerificationGas, if_neg (not_lt.mpr h1), if_neg (by simp [h2])]
    by_cases hpv : op.preVerificationGas < calcPreVerificationGas op
    · rw [if_pos hpv]
      constructor
      · intro hcontra
        exact absurd hcontra (by simp)
      · intro hle
        exact (not_le.mpr hpv hle).elim
    · rw [if_neg hpv]
      exact ⟨fun _ => not_lt.mp hpv, fun _ => rfl⟩

/-- Witness for C6: the conventional fixture passes the gas check under the
default cap, and an intent passes it with zero preVerificationGas. -/
theorem validate_verification_gas_spec_run :
    validateVerificationGas opConv 3000000 = Except.ok () ∧
    validateVerificationGas opIntent 3000000 = Except.ok () :=
  ⟨((validate_verification_gas_spec opConv 3000000).2.2 (by decide) (by decide)).mpr
      (by decide),
   (validate_verification_gas_spec opIntent 3000000).2.1 (by decide) (by decide)⟩

/-- Claim C7: no unsolved intent operation is ever part of a batch the
relayer hands to handleOps; everything submitted is either conventional or
a solved intent. -/
theorem relayer_never_submits_unsolved_intent
    (est : List UserOperation → EstimateOutcome)
    (submit : List UserOperation → Except String String) (fuel : Nat)
    (ctx : BatchHandlerCtx) (b : List UserOperation) (op : UserOperation)
    (hb : b ∈ (relayerSendUserOperation est submit fuel ctx).submitted)
    (hop : op ∈ b) : op.isUnsolvedIntent = false := by
  rcases relayer_submitted_cases est submit fuel ctx b hb with h | h
  · subst h
    have hcv := partitionBatch_fst_conventional ctx.batch op hop
    simp [UserOperation.isUnsolvedIntent, hcv]
  · subst h
    have hsv := partitionBatch_snd_solved ctx.batch op hop
    have h2 : op.hasEVM = true := by
      simp [UserOperation.isSolvedIntent] at hsv
      exact hsv.2
    simp [UserOperation.isUnsolvedIntent, h2]

/-- Witness for C7 at a concrete submitted batch. -/
theorem relayer_never_submits_unsolved_intent_run :
    opConv.isUnsolvedIntent = false :=
  relayer_never_submits_unsolved_intent estAlwaysOk submitOk 1 ctxC7 [opConv] opConv
    (by decide) (by decide)

/-- Claim C8 counterexample: the calldata 123 is a syntactically valid JSON
value but not a JSON object, and HasIntent accepts it. -/
theorem has_intent_nonobject_cex :
    UserOperation.hasIntent opBadIntent = true ∧
    hasIntentSpecObj opBadIntent.callData = false :=
  ⟨rfl, rfl⟩

/-- Claim C8 (amended): HasIntent returns true exactly when the calldata is
one syntactically valid JSON value of any kind; every valid JSON object is
accepted, but so are non-object JSON values such as numbers. -/
theorem has_intent_amended (op : UserOperation) :
    (hasIntentSpecObj op.callData = true → op.hasIntent = true) ∧
    (op.hasIntent = true ↔ ∃ j, parseJson op.callData = some j) := by
  constructor
  · intro h
    unfold hasIntentSpecObj at h
    unfold UserOperation.hasIntent
    cases hp : parseJson op.callData with
    | none => rw [hp] at h; simp at h
    | some j => simp [hp]
  · unfold UserOperation.hasIntent
    cases hp : parseJson op.callData with
    | none => simp [hp]
    | some j => simp [hp]

/-- Witness for C8 at the concrete JSON-object calldata. -/
theorem has_intent_amended_run : UserOperation.hasIntent opIntent = true :=
  (has_intent_amended opIntent).1 (by decide)
